import Mathlib

/-!
Verification of the watch-mode process supervisor and build orchestrator
of `src/scripts/build.ts` (class `Builder`).

The embedding models, directly from the source:
  * the substring test used by `String.prototype.includes`;
  * `onLine`'s newline splitting and per-process line buffering;
  * the ANSI escape stripper (the `ansi-regex` pattern applied with
    `line.replace(re, "")`), as a backtracking matcher in the regex
    engine's preference order;
  * the watch-mode supervisor (`watch`): `restartServer`, `cleanup`,
    signal handlers, watcher exit handlers, the vscode/tsc line triggers
    and the `bundle.then(restartServer)` deferral — as a step machine over
    explicit events producing a trace of observable effects;
  * `target` (platform resolution) and `run`/`doRun` (task dispatch).
-/

/-- Model of testing whether `pat` is a prefix of `s` (character lists). -/
def startsWithL : List Char → List Char → Bool
  | [], _ => true
  | _ :: _, [] => false
  | p :: ps, c :: cs => p == c && startsWithL ps cs

/-- Model of JavaScript `String.prototype.includes`: `pat` occurs somewhere
in `s` (as character lists). -/
def containsSub (pat : List Char) : List Char → Bool
  | [] => pat.isEmpty
  | c :: rest => startsWithL pat (c :: rest) || containsSub pat rest

/-- `s.includes pat` on strings. -/
def strContains (s pat : String) : Bool :=
  containsSub pat.toList s.toList

/-- Model of JavaScript `data.split("\n")` (from `onLine` in `watch`):
the list of newline-separated segments; always non-empty, and the last
segment is the part after the final newline (possibly empty). -/
def splitLines : List Char → List (List Char)
  | [] => [[]]
  | c :: rest =>
    if c = '\n' then [] :: splitLines rest
    else
      match splitLines rest with
      | [] => [[c]]
      | l :: ls => (c :: l) :: ls

theorem splitLines_ne_nil (s : List Char) : splitLines s ≠ [] := by
  match s with
  | [] => simp [splitLines]
  | c :: rest =>
    simp only [splitLines]
    split
    · simp
    · split <;> simp

/-- `splitLines` of a newline-free list is that single segment. -/
theorem splitLines_of_no_newline (s : List Char) (h : '\n' ∉ s) :
    splitLines s = [s] := by
  induction s with
  | nil => rfl
  | cons c rest ih =>
    have hc : ¬ (c = '\n') := fun hc => h (hc ▸ List.mem_cons_self c rest)
    have hrest : '\n' ∉ rest := fun hm => h (List.mem_cons_of_mem c hm)
    simp only [splitLines, if_neg hc, ih hrest]

/-- Default value of `getLastD` is irrelevant for a non-empty list. -/
theorem getLastD_irrel {α : Type} (x : α) (xs : List α) (d d' : α) :
    (x :: xs).getLastD d = (x :: xs).getLastD d' := by
  rw [List.getLastD_cons, List.getLastD_cons]

/-- Default value of `getLastD` is irrelevant for a non-empty list. -/
theorem getLastD_irrel' {α : Type} {l : List α} (h : l ≠ []) (d d' : α) :
    l.getLastD d = l.getLastD d' := by
  obtain ⟨x, xs, rfl⟩ := List.exists_cons_of_ne_nil h
  exact getLastD_irrel x xs d d'

/-- Default-irrelevant `getLastD` of an append with non-empty right part. -/
theorem getLastD_append_ne {α : Type} (a : List α) {b : List α} (h : b ≠ [])
    (d : α) : (a ++ b).getLastD d = b.getLastD d := by
  induction a with
  | nil => rfl
  | cons x xs ih =>
    rw [List.cons_append, List.getLastD_cons,
        getLastD_irrel' (by simp [h] : xs ++ b ≠ []) x d, ih]

/-- Merge the last segment of the first list with the head segment of the
second: `splitLines` of a concatenation glues the boundary line. -/
def joinLast : List (List Char) → List (List Char) → List (List Char)
  | [], yys => yys
  | [x], [] => [x]
  | [x], y :: ys => (x ++ y) :: ys
  | x :: x2 :: xs, yys => x :: joinLast (x2 :: xs) yys

theorem splitLines_append (a b : List Char) :
    splitLines (a ++ b) = joinLast (splitLines a) (splitLines b) := by
  induction a with
  | nil =>
    obtain ⟨hb, tb, hsb⟩ := List.exists_cons_of_ne_nil (splitLines_ne_nil b)
    simp [splitLines, hsb, joinLast]
  | cons c a' ih =>
    obtain ⟨s, ss, hsa⟩ := List.exists_cons_of_ne_nil (splitLines_ne_nil a')
    have key : splitLines (a' ++ b) = joinLast (s :: ss) (splitLines b) := by
      rw [ih, hsa]
    by_cases hc : c = '\n'
    · subst hc
      have e1 : splitLines ('\n' :: (a' ++ b)) = [] :: splitLines (a' ++ b) := by
        simp [splitLines]
      have e2 : splitLines ('\n' :: a') = [] :: splitLines a' := by
        simp [splitLines]
      rw [List.cons_append, e1, e2, ih, hsa]
      rfl
    · rcases ss with _ | ⟨s2, ss'⟩
      · obtain ⟨hb, tb, hsb⟩ := List.exists_cons_of_ne_nil (splitLines_ne_nil b)
        rw [hsb] at key
        have key' : splitLines (a' ++ b) = (s ++ hb) :: tb := key
        rw [List.cons_append]
        simp [splitLines, hc, key', hsa, hsb, joinLast]
      · have key' : splitLines (a' ++ b) = s :: joinLast (s2 :: ss') (splitLines b) := key
        rw [List.cons_append]
        simp [splitLines, hc, key', hsa, joinLast]

/-- Peeling the initial segments of the left argument off `joinLast`. -/
theorem joinLast_split (S T : List (List Char)) (h : S ≠ []) :
    joinLast S T = S.dropLast ++ joinLast [S.getLastD []] T := by
  induction S with
  | nil => exact absurd rfl h
  | cons x xs ih =>
    rcases xs with _ | ⟨y, ys⟩
    · simp [List.getLastD_cons]
    · rw [show joinLast (x :: y :: ys) T = x :: joinLast (y :: ys) T from rfl,
          ih (by simp)]
      simp only [List.getLastD_cons, List.dropLast_cons₂, List.cons_append]

/-!
The ANSI escape pattern used by `watch` (from chalk/ansi-regex), applied
with `line.replace(re, "")`:

    [\u001B\u009B][[\]()#;?]*
      (?:(?:(?:[a-zA-Z\d]*(?:;[-a-zA-Z\d\/#&.:=?%@~_]*)*)?\u0007)
        |(?:(?:\d{1,4}(?:;\d{0,4})*)?[\dA-PR-TZcf-ntqry=><~]))

The matcher below follows the backtracking engine's preference order:
each `...Cands` function returns the list of possible remainders after
the corresponding sub-pattern, most-preferred (greediest) first; the
engine's match is the head of the candidate list.  Starred groups that
consume at least one character per iteration are given fuel equal to the
input length, which is always sufficient.
-/

/-- The introducer class `[\u001B\u009B]` (ESC / CSI). -/
def isIntro (c : Char) : Bool := c == '\u001B' || c == '\u009B'

/-- The class `[[\]()#;?]`. -/
def isBracketish (c : Char) : Bool :=
  c == '[' || c == ']' || c == '(' || c == ')' || c == '#' || c == ';' || c == '?'

/-- The class `\d`. -/
def isDigitC (c : Char) : Bool := 48 ≤ c.toNat && c.toNat ≤ 57

/-- The class `[a-zA-Z\d]`. -/
def isAlphaNumC (c : Char) : Bool :=
  (97 ≤ c.toNat && c.toNat ≤ 122) || (65 ≤ c.toNat && c.toNat ≤ 90) || isDigitC c

/-- The class `[-a-zA-Z\d\/#&.:=?%@~_]`. -/
def isLinkC (c : Char) : Bool :=
  c == '-' || isAlphaNumC c || c == '/' || c == '#' || c == '&' || c == '.' ||
  c == ':' || c == '=' || c == '?' || c == '%' || c == '@' || c == '~' || c == '_'

/-- The final-byte class `[\dA-PR-TZcf-ntqry=><~]`. -/
def isFinalC (c : Char) : Bool :=
  isDigitC c || (65 ≤ c.toNat && c.toNat ≤ 80) || (82 ≤ c.toNat && c.toNat ≤ 84) ||
  c == 'Z' || c == 'c' || (102 ≤ c.toNat && c.toNat ≤ 110) ||
  c == 't' || c == 'q' || c == 'r' || c == 'y' ||
  c == '=' || c == '>' || c == '<' || c == '~'

/-- Remainders after a greedy `p*`, longest consumption first. -/
def starCands (p : Char → Bool) : List Char → List (List Char)
  | [] => [[]]
  | c :: rest => if p c then starCands p rest ++ [c :: rest] else [c :: rest]

/-- Remainders after a greedy `\d{0,n}`, longest consumption first. -/
def digitCands : Nat → List Char → List (List Char)
  | _, [] => [[]]
  | 0, s => [s]
  | n + 1, c :: rest =>
    if isDigitC c then digitCands n rest ++ [c :: rest] else [c :: rest]

theorem starCands_suffix (p : Char → Bool) :
    ∀ s r, r ∈ starCands p s → r <:+ s := by
  intro s
  induction s with
  | nil => intro r hr; simp [starCands] at hr; simp [hr]
  | cons c rest ih =>
    intro r hr
    simp only [starCands] at hr
    by_cases hp : p c
    · rw [if_pos hp, List.mem_append] at hr
      rcases hr with hr | hr
      · exact (ih r hr).trans (List.suffix_cons c rest)
      · simp at hr; simp [hr]
    · rw [if_neg hp] at hr; simp at hr; simp [hr]

theorem digitCands_suffix :
    ∀ n s r, r ∈ digitCands n s → r <:+ s := by
  intro n s
  induction s generalizing n with
  | nil => intro r hr; simp [digitCands] at hr; simp [hr]
  | cons c rest ih =>
    intro r hr
    match n with
    | 0 => simp [digitCands] at hr; simp [hr]
    | m + 1 =>
      simp only [digitCands] at hr
      by_cases hp : isDigitC c
      · rw [if_pos hp, List.mem_append] at hr
        rcases hr with hr | hr
        · exact (ih m r hr).trans (List.suffix_cons c rest)
        · simp at hr; simp [hr]
      · rw [if_neg hp] at hr; simp at hr; simp [hr]

/-- Remainders after the greedy starred group `(?:;\d{0,4})*`
(most iterations / longest digit runs first, zero iterations last). -/
def semiDigitsStarF : Nat → List Char → List (List Char)
  | 0, s => [s]
  | _ + 1, [] => [[]]
  | fuel + 1, c :: rest =>
    if c == ';' then
      ((digitCands 4 rest).map (fun r => semiDigitsStarF fuel r)).flatten
        ++ [c :: rest]
    else [c :: rest]

/-- Remainders after the greedy starred group `(?:;[-a-zA-Z\d\/#&.:=?%@~_]*)*`. -/
def semiLinkStarF : Nat → List Char → List (List Char)
  | 0, s => [s]
  | _ + 1, [] => [[]]
  | fuel + 1, c :: rest =>
    if c == ';' then
      ((starCands isLinkC rest).map (fun r => semiLinkStarF fuel r)).flatten
        ++ [c :: rest]
    else [c :: rest]

theorem semiDigitsStarF_suffix :
    ∀ fuel s r, r ∈ semiDigitsStarF fuel s → r <:+ s := by
  intro fuel
  induction fuel with
  | zero => intro s r hr; simp [semiDigitsStarF] at hr; simp [hr]
  | succ fu ih =>
    intro s r hr
    match s with
    | [] => simp [semiDigitsStarF] at hr; simp [hr]
    | c :: rest =>
      simp only [semiDigitsStarF] at hr
      by_cases hc : c == ';'
      · rw [if_pos hc, List.mem_append] at hr
        rcases hr with hr | hr
        · rw [List.mem_flatten] at hr
          obtain ⟨L, hL, hrL⟩ := hr
          rw [List.mem_map] at hL
          obtain ⟨r', hr', rfl⟩ := hL
          exact ((ih r' r hrL).trans (digitCands_suffix 4 rest r' hr')).trans
            (List.suffix_cons c rest)
        · simp at hr; simp [hr]
      · rw [if_neg hc] at hr; simp at hr; simp [hr]

theorem semiLinkStarF_suffix :
    ∀ fuel s r, r ∈ semiLinkStarF fuel s → r <:+ s := by
  intro fuel
  induction fuel with
  | zero => intro s r hr; simp [semiLinkStarF] at hr; simp [hr]
  | succ fu ih =>
    intro s r hr
    match s with
    | [] => simp [semiLinkStarF] at hr; simp [hr]
    | c :: rest =>
      simp only [semiLinkStarF] at hr
      by_cases hc : c == ';'
      · rw [if_pos hc, List.mem_append] at hr
        rcases hr with hr | hr
        · rw [List.mem_flatten] at hr
          obtain ⟨L, hL, hrL⟩ := hr
          rw [List.mem_map] at hL
          obtain ⟨r', hr', rfl⟩ := hL
          exact ((ih r' r hrL).trans (starCands_suffix isLinkC rest r' hr')).trans
            (List.suffix_cons c rest)
        · simp at hr; simp [hr]
      · rw [if_neg hc] at hr; simp at hr; simp [hr]

/-- Consume the terminating `\u0007` (BEL) of the first alternative. -/
def belCheck : List Char → List (List Char)
  | [] => []
  | c :: rest => if c == '\u0007' then [rest] else []

/-- Consume the final byte `[\dA-PR-TZcf-ntqry=><~]` of the second
alternative. -/
def finalCheck : List Char → List (List Char)
  | [] => []
  | c :: rest => if isFinalC c then [rest] else []

/-- Remainders after a greedy `\d{1,4}`: one required digit then up to
three more, longest first. -/
def digits1to4Cands : List Char → List (List Char)
  | [] => []
  | c :: rest => if isDigitC c then digitCands 3 rest else []

/-- Remainders after the first alternative
`(?:(?:[a-zA-Z\d]*(?:;[-a-zA-Z\d\/#&.:=?%@~_]*)*)?\u0007)`: the optional
group is tried first (greedy), then the bare BEL. -/
def altACands (s : List Char) : List (List Char) :=
  ((starCands isAlphaNumC s).flatMap (fun r =>
    (semiLinkStarF r.length r).flatMap belCheck)) ++ belCheck s

/-- Remainders after the second alternative
`(?:(?:\d{1,4}(?:;\d{0,4})*)?[\dA-PR-TZcf-ntqry=><~])`: the optional
digit group is tried first (greedy), then the bare final byte. -/
def altBCands (s : List Char) : List (List Char) :=
  ((digits1to4Cands s).flatMap (fun r =>
    (semiDigitsStarF r.length r).flatMap finalCheck)) ++ finalCheck s

/-- The engine's match at a position just after an introducer byte:
`[[\]()#;?]*` then alternative A or B; the head of the preference-ordered
candidate list is the remainder of the leftmost-first match. -/
def matchAnsi (s : List Char) : Option (List Char) :=
  ((starCands isBracketish s).flatMap (fun r => altACands r ++ altBCands r)).head?

theorem belCheck_suffix (s r : List Char) (h : r ∈ belCheck s) : r <:+ s := by
  match s with
  | [] => simp [belCheck] at h
  | c :: rest =>
    simp only [belCheck] at h
    by_cases hc : c == '\u0007'
    · rw [if_pos hc] at h; simp at h
      exact h ▸ List.suffix_cons c rest
    · rw [if_neg hc] at h; simp at h

theorem finalCheck_suffix (s r : List Char) (h : r ∈ finalCheck s) : r <:+ s := by
  match s with
  | [] => simp [finalCheck] at h
  | c :: rest =>
    simp only [finalCheck] at h
    by_cases hc : isFinalC c
    · rw [if_pos hc] at h; simp at h
      exact h ▸ List.suffix_cons c rest
    · rw [if_neg hc] at h; simp at h

theorem digits1to4Cands_suffix (s r : List Char) (h : r ∈ digits1to4Cands s) :
    r <:+ s := by
  match s with
  | [] => simp [digits1to4Cands] at h
  | c :: rest =>
    simp only [digits1to4Cands] at h
    by_cases hc : isDigitC c
    · rw [if_pos hc] at h
      exact (digitCands_suffix 3 rest r h).trans (List.suffix_cons c rest)
    · rw [if_neg hc] at h; simp at h

theorem altACands_suffix (s r : List Char) (h : r ∈ altACands s) : r <:+ s := by
  rw [altACands, List.mem_append] at h
  rcases h with h | h
  · rw [List.mem_flatMap] at h
    obtain ⟨r1, hr1, h⟩ := h
    rw [List.mem_flatMap] at h
    obtain ⟨r2, hr2, h⟩ := h
    exact ((belCheck_suffix r2 r h).trans
      (semiLinkStarF_suffix r1.length r1 r2 hr2)).trans
      (starCands_suffix isAlphaNumC s r1 hr1)
  · exact belCheck_suffix s r h

theorem altBCands_suffix (s r : List Char) (h : r ∈ altBCands s) : r <:+ s := by
  rw [altBCands, List.mem_append] at h
  rcases h with h | h
  · rw [List.mem_flatMap] at h
    obtain ⟨r1, hr1, h⟩ := h
    rw [List.mem_flatMap] at h
    obtain ⟨r2, hr2, h⟩ := h
    exact ((finalCheck_suffix r2 r h).trans
      (semiDigitsStarF_suffix r1.length r1 r2 hr2)).trans
      (digits1to4Cands_suffix s r1 hr1)
  · exact finalCheck_suffix s r h

theorem matchAnsi_suffix (s r : List Char) (h : matchAnsi s = some r) : r <:+ s := by
  have hm := List.mem_of_mem_head? h
  rw [List.mem_flatMap] at hm
  obtain ⟨r1, hr1, hm⟩ := hm
  rw [List.mem_append] at hm
  rcases hm with hm | hm
  · exact (altACands_suffix r1 r hm).trans (starCands_suffix isBracketish s r1 hr1)
  · exact (altBCands_suffix r1 r hm).trans (starCands_suffix isBracketish s r1 hr1)

/-- Model of `line.replace(re, "")` with the global ANSI regex: scan left to
right; at an introducer byte, delete the leftmost-first match and continue
after it; otherwise keep the character.  Structural fuel (the input length
suffices, since a match at an introducer consumes at least that byte). -/
def stripAnsiFuel : Nat → List Char → List Char
  | 0, s => s
  | _ + 1, [] => []
  | fuel + 1, c :: rest =>
    if isIntro c then
      match matchAnsi rest with
      | some r => stripAnsiFuel fuel r
      | none => c :: stripAnsiFuel fuel rest
    else c :: stripAnsiFuel fuel rest

/-- ANSI stripping of a character list. -/
def stripAnsi (s : List Char) : List Char := stripAnsiFuel s.length s

/-- ANSI stripping of a string, as applied to each emitted line. -/
def stripAnsiStr (s : String) : String := String.mk (stripAnsi s.toList)

/-- The last segment of `splitLines` never contains a newline. -/
theorem splitLines_getLast_no_newline (s : List Char) :
    '\n' ∉ (splitLines s).getLastD [] := by
  induction s with
  | nil => simp [splitLines]
  | cons c rest ih =>
    obtain ⟨l, ls, hs⟩ := List.exists_cons_of_ne_nil (splitLines_ne_nil rest)
    rw [hs] at ih
    by_cases hc : c = '\n'
    · subst hc
      simp only [splitLines, if_pos rfl, hs, List.getLastD_cons]
      exact ih
    · simp only [splitLines, if_neg hc, hs]
      rcases ls with _ | ⟨l2, ls'⟩
      · rw [List.getLastD_cons, List.getLastD_nil]
        rw [List.getLastD_cons, List.getLastD_nil] at ih
        intro hm
        rcases List.mem_cons.mp hm with hm | hm
        · exact hc hm.symm
        · exact ih hm
      · rw [List.getLastD_cons] at ih ⊢
        rwa [getLastD_irrel' (List.cons_ne_nil l2 ls') (c :: l) l]

/-- One `data` callback of `onLine` (from `watch`): prepend the buffer to
the chunk, split on newline, emit every complete segment as the pair
(ANSI-stripped line, original line) in order, and keep the last segment
as the new buffer. -/
def procChunk (buffer chunk : List Char) :
    List (List Char × List Char) × List Char :=
  let split := splitLines (buffer ++ chunk)
  (split.dropLast.map (fun l => (stripAnsi l, l)), split.getLastD [])

/-- `onLine` over a whole sequence of `data` chunks, threading the buffer;
returns all emitted (stripped, original) pairs and the final buffer. -/
def procStream (buffer : List Char) :
    List (List Char) → List (List Char × List Char) × List Char
  | [] => ([], buffer)
  | c :: cs =>
    let r1 := procChunk buffer c
    let r2 := procStream r1.2 cs
    (r1.1 ++ r2.1, r2.2)

/-- Generalised invariant: starting from a newline-free buffer, the lines
emitted across arbitrarily fragmented chunks are exactly all but the last
segment of the fully reassembled stream, and the final buffer is that
last, unterminated segment. -/
theorem procStream_spec :
    ∀ (cs : List (List Char)) (buf : List Char), '\n' ∉ buf →
    procStream buf cs =
      (((splitLines (buf ++ cs.flatten)).dropLast).map (fun l => (stripAnsi l, l)),
        (splitLines (buf ++ cs.flatten)).getLastD []) := by
  intro cs
  induction cs with
  | nil =>
    intro buf hbuf
    rw [List.flatten_nil, List.append_nil, splitLines_of_no_newline buf hbuf]
    simp [procStream]
  | cons c cs ih =>
    intro buf hbuf
    have hbuf1 : '\n' ∉ (splitLines (buf ++ c)).getLastD [] :=
      splitLines_getLast_no_newline (buf ++ c)
    obtain ⟨hJ, tJ, hsJ⟩ :=
      List.exists_cons_of_ne_nil (splitLines_ne_nil cs.flatten)
    have hBne : joinLast [(splitLines (buf ++ c)).getLastD []]
        (splitLines cs.flatten) ≠ [] := by
      rw [hsJ]; exact List.cons_ne_nil _ _
    have hfull : splitLines (buf ++ (c :: cs).flatten) =
        (splitLines (buf ++ c)).dropLast ++
          joinLast [(splitLines (buf ++ c)).getLastD []] (splitLines cs.flatten) := by
      rw [List.flatten_cons, ← List.append_assoc, splitLines_append,
        joinLast_split _ _ (splitLines_ne_nil (buf ++ c))]
    have hbufside : splitLines ((splitLines (buf ++ c)).getLastD [] ++ cs.flatten) =
        joinLast [(splitLines (buf ++ c)).getLastD []] (splitLines cs.flatten) := by
      rw [splitLines_append, splitLines_of_no_newline _ hbuf1]
    show ((procChunk buf c).1 ++ (procStream (procChunk buf c).2 cs).1,
          (procStream (procChunk buf c).2 cs).2) = _
    rw [procChunk]
    simp only
    rw [ih _ hbuf1, hfull, hbufside,
      List.dropLast_append_of_ne_nil _ hBne, getLastD_append_ne _ hBne]
    simp [List.map_append]

/-- C3.  For every byte stream and every fragmentation of it into chunks,
the Line Stream Reader (`onLine`) emits exactly the pairs
(stripped, original) for all but the last newline-separated segment of the
fully reassembled stream, in order — so the stripped-line sequence equals
the sequence obtained by splitting the reassembled stream on newline and
stripping each complete line independently, and the trailing segment not
terminated by a newline is withheld in the buffer and never emitted. -/
theorem c3_fragmentation_invariance (chunks : List (List Char)) :
    procStream [] chunks =
      (((splitLines chunks.flatten).dropLast).map (fun l => (stripAnsi l, l)),
        (splitLines chunks.flatten).getLastD []) := by
  have h := procStream_spec chunks [] (by simp)
  rwa [List.nil_append] at h

/-- The line is plain text interleaved with well-formed ANSI escape
sequences: every introducer byte in it begins a match of the regex. -/
def goodLine : List Char → Bool
  | [] => true
  | c :: rest =>
    (if isIntro c then (matchAnsi rest).isSome else true) && goodLine rest

theorem goodLine_append_right (t s : List Char)
    (h : goodLine (t ++ s) = true) : goodLine s = true := by
  induction t with
  | nil => exact h
  | cons c t' ih =>
    rw [List.cons_append, goodLine, Bool.and_eq_true] at h
    exact ih h.2

theorem goodLine_suffix {s r : List Char} (hsuf : r <:+ s)
    (h : goodLine s = true) : goodLine r = true := by
  obtain ⟨t, rfl⟩ := hsuf
  exact goodLine_append_right t r h

/-- Stripping a line whose introducer bytes all begin regex matches leaves
no introducer (escape) bytes in the output. -/
theorem stripAnsiFuel_no_intro :
    ∀ fuel s, s.length ≤ fuel → goodLine s = true →
    ∀ c ∈ stripAnsiFuel fuel s, isIntro c = false := by
  intro fuel
  induction fuel with
  | zero =>
    intro s hlen _ c hc
    rw [Nat.le_zero, List.length_eq_zero] at hlen
    subst hlen
    simp [stripAnsiFuel] at hc
  | succ fu ih =>
    intro s hlen hgood c hc
    match s with
    | [] => simp [stripAnsiFuel] at hc
    | d :: rest =>
      rw [goodLine, Bool.and_eq_true] at hgood
      have hlenr : rest.length ≤ fu := Nat.succ_le_succ_iff.mp hlen
      by_cases hd : isIntro d
      · have hsome : (matchAnsi rest).isSome := by
          have h1 := hgood.1; rwa [if_pos hd] at h1
        obtain ⟨r, hr⟩ := Option.isSome_iff_exists.mp hsome
        simp only [stripAnsiFuel, if_pos hd, hr] at hc
        have hrsuf := matchAnsi_suffix rest r hr
        exact ih r (le_trans hrsuf.length_le hlenr)
          (goodLine_suffix hrsuf hgood.2) c hc
      · simp only [stripAnsiFuel, if_neg hd] at hc
        rcases List.mem_cons.mp hc with hc | hc
        · subst hc; exact Bool.eq_false_iff.mpr hd
        · exact ih rest hlenr hgood.2 c hc

/-- `stripAnsi` of a good line contains no escape bytes. -/
theorem stripAnsi_no_intro (s : List Char) (h : goodLine s = true) :
    ∀ c ∈ stripAnsi s, isIntro c = false :=
  stripAnsiFuel_no_intro s.length s le_rfl h

/-- Every pair emitted by the Line Stream Reader is
(stripped line, original line) for the same line. -/
theorem procStream_pair (chunks : List (List Char))
    (p : List Char × List Char) (hp : p ∈ (procStream [] chunks).1) :
    p.1 = stripAnsi p.2 := by
  have hspec := procStream_spec chunks [] (by simp)
  rw [List.nil_append] at hspec
  rw [hspec] at hp
  simp only [List.mem_map] at hp
  obtain ⟨l, _, rfl⟩ := hp
  rfl

/-!
The watch-mode supervisor (`watch`).  Child-process I/O callbacks and
signal handlers run on a single event loop; the machine below processes
one event per step, emitting the observable side effects of the
corresponding source handler.  `process.exit` (the tail of `cleanup`)
terminates the run: once `exited` is set no handler ever runs again.
-/

/-- Observable side effects of the watch-mode supervisor. -/
inductive Effect where
  | log (msg : String)
  | killVscode
  | killTsc
  | killServer (pid : Nat)
  | spawnServer (pid : Nat)
  | serverExited (pid : Nat)
  | execCmd (cmd : String)
  | exitRun (code : Int)
deriving DecidableEq

/-- External events delivered to the supervisor's event loop. -/
inductive Event where
  | sigint
  | sigterm
  | vscodeExit (code : Option Int)
  | tscExit (code : Option Int)
  | vscodeLine (line : String)
  | tscLine (line : String)
  | bundleResolve
  | bundleReject
  | serverExit (pid : Nat)
deriving DecidableEq

/-- Supervisor state: the `server` variable, a counter supplying fresh
pids for forked servers, the `startingVscode` flag, whether the `bundle`
promise has resolved, how many `bundle.then(restartServer)` callbacks are
queued on the still-pending promise, and the exit status once
`process.exit` has run. -/
structure WatchState where
  server : Option Nat
  nextPid : Nat
  startingVscode : Bool
  bundleResolved : Bool
  pendingThens : Nat
  exited : Option Int
deriving DecidableEq

/-- JavaScript `code || 0` on a `number | null | undefined` exit code. -/
def jsOr0 : Option Int → Int
  | none => 0
  | some c => if c = 0 then 0 else c

/-- Effects of `cleanup(code)`: detach listeners from and kill the vscode
watcher, then tsc, then the server if present, then
`process.exit(code || 0)`. -/
def cleanup (server : Option Nat) (code : Option Int) : List Effect :=
  [Effect.log "killing vs code watcher", Effect.killVscode,
   Effect.log "killing tsc", Effect.killTsc] ++
  (match server with
   | some p => [Effect.log "killing server", Effect.killServer p]
   | none => []) ++
  [Effect.log "killing bundler", Effect.exitRun (jsOr0 code)]

/-- `restartServer()`: kill the current server if one is recorded, then
immediately fork the replacement, log its pid and record it — all in one
synchronous step, with no waiting for the old process's exit. -/
def restartServer (st : WatchState) : WatchState × List Effect :=
  ({ st with server := some st.nextPid, nextPid := st.nextPid + 1 },
    (match st.server with
     | some p => [Effect.killServer p]
     | none => []) ++
    [Effect.spawnServer st.nextPid,
     Effect.log ("[server] spawned process " ++ toString st.nextPid)])

/-- Run the `restartServer` callbacks queued on the `bundle` promise, in
registration order. -/
def runPending : Nat → WatchState → WatchState × List Effect
  | 0, st => (st, [])
  | n + 1, st =>
    let r1 := restartServer st
    let r2 := runPending n r1.1
    (r2.1, r1.2 ++ r2.2)

/-- One event-loop step of the watch-mode supervisor.  `autoPatch` is the
`AUTO_PATCH` environment flag.  A step on a state whose `exited` is set
performs nothing (`process.exit` already terminated the run). -/
def watchStep (autoPatch : Bool) (st : WatchState) (ev : Event) :
    WatchState × List Effect :=
  if st.exited.isSome then (st, [])
  else
    match ev with
    | Event.sigint =>
      ({ st with exited := some (jsOr0 none) }, cleanup st.server none)
    | Event.sigterm =>
      ({ st with exited := some (jsOr0 none) }, cleanup st.server none)
    | Event.vscodeExit c =>
      ({ st with exited := some (jsOr0 c) },
        Effect.log "vs code watcher terminated unexpectedly" :: cleanup st.server c)
    | Event.tscExit c =>
      ({ st with exited := some (jsOr0 c) },
        Effect.log "tsc terminated unexpectedly" :: cleanup st.server c)
    | Event.bundleReject =>
      ({ st with exited := some (jsOr0 (some 1)) },
        Effect.log "parcel watcher terminated unexpectedly" :: cleanup st.server (some 1))
    | Event.vscodeLine l =>
      let stripped := stripAnsiStr l
      if !st.startingVscode && strContains stripped "Starting watch-client" then
        ({ st with startingVscode := true }, [Effect.log ("[vscode] " ++ l)])
      else if st.startingVscode && strContains stripped "Finished compilation"
          && autoPatch then
        (st, [Effect.log ("[vscode] " ++ l), Effect.execCmd "yarn patch:generate"])
      else (st, [Effect.log ("[vscode] " ++ l)])
    | Event.tscLine l =>
      let stripped := stripAnsiStr l
      let echo := if stripped == "" then [] else [Effect.log ("[tsc] " ++ l)]
      if strContains stripped "Watching for file changes" then
        if st.bundleResolved then
          let r := restartServer st
          (r.1, echo ++ r.2)
        else ({ st with pendingThens := st.pendingThens + 1 }, echo)
      else (st, echo)
    | Event.bundleResolve =>
      runPending st.pendingThens
        { st with bundleResolved := true, pendingThens := 0 }
    | Event.serverExit p =>
      (st, [Effect.serverExited p])

/-- Process a sequence of events, concatenating the emitted effects. -/
def runTrace (autoPatch : Bool) (st : WatchState) : List Event → List Effect
  | [] => []
  | e :: es =>
    let r := watchStep autoPatch st e
    r.2 ++ runTrace autoPatch r.1 es

/-- The supervisor state right after `watch` wires everything up: no
server yet, arming flag clear, `bundle` promise pending, run live. -/
def initWatch : WatchState :=
  { server := none, nextPid := 1, startingVscode := false,
    bundleResolved := false, pendingThens := 0, exited := none }

/-- Number of `execCmd` effects (auto-patch side-command firings). -/
def execCount : List Effect → Nat
  | [] => 0
  | Effect.execCmd _ :: rest => execCount rest + 1
  | _ :: rest => execCount rest

/-- Number of `spawnServer` effects (server (re)starts). -/
def spawnCount : List Effect → Nat
  | [] => 0
  | Effect.spawnServer _ :: rest => spawnCount rest + 1
  | _ :: rest => spawnCount rest

/-!
Platform resolution (`target`) and task dispatch (`run`/`doRun`).
-/

/-- Result of the `ldd --version` probe: a successful `cp.exec` yields
(stdout, stderr); a failed one is caught and replaced by
`(stdout := "", stderr := error.message)`. -/
inductive ProbeResult where
  | ok (stdout stderr : String)
  | err (message : String)
deriving DecidableEq

/-- The (stdout, stderr) pair actually inspected: the catch handler
substitutes the error message for stderr and the empty string for stdout. -/
def probeOutputs : ProbeResult → String × String
  | ProbeResult.ok o e => (o, e)
  | ProbeResult.err m => ("", m)

/-- Truthiness test `process.env.OSTYPE && /^darwin/.test(OSTYPE)`. -/
def ostypeDarwin : Option String → Bool
  | none => false
  | some s => !(s == "") && startsWithL "darwin".toList s.toList

/-- Whether `/musl/` matches the probe's stderr or stdout. -/
def muslIn (pr : ProbeResult) : Bool :=
  strContains (probeOutputs pr).2 "musl" || strContains (probeOutputs pr).1 "musl"

/-- `target()`: darwin from host facts alone; otherwise run the probe
(a thunk, forced only on this branch) and pick "alpine" exactly when its
output mentions musl, "linux" otherwise (a failed probe without musl in
its message thus defaults to "linux"). -/
def targetResolve (platform : String) (ostype : Option String)
    (probe : Unit → ProbeResult) : String :=
  if platform == "darwin" || ostypeDarwin ostype then "darwin"
  else if muslIn (probe ()) then "alpine" else "linux"

/-- Observable effects of `run`/`doRun` (task dispatch). -/
inductive RunEffect where
  | logMsg (msg : String)
  | spawnProbe
  | pipeline (task : String) (binaryName : String)
  | errorMsg (msg : String)
  | exitRun (code : Int)
deriving DecidableEq

/-- `os.arch().replace(/^x/, "x86_")`. -/
def archTransform (a : String) : String :=
  match a.toList with
  | 'x' :: rest => String.mk ('x' :: '8' :: '6' :: '_' :: rest)
  | _ => a

/-- `target()` with its child-process spawn made explicit: resolving on a
non-darwin host spawns the `ldd --version` probe. -/
def targetModel (platform : String) (ostype : Option String)
    (probe : Unit → ProbeResult) : List RunEffect × String :=
  if platform == "darwin" || ostypeDarwin ostype then ([], "darwin")
  else ([RunEffect.spawnProbe], if muslIn (probe ()) then "alpine" else "linux")

/-- `doRun(task)` as an effect list plus an optional thrown error message.
`task` is `process.argv[2]` (`none` when absent; the empty string is falsy
too, hence also "No task provided").  The `[label]` prefix of each log
line is `currentTask`; `arch`/`target` go through `ensureArgument`, which
throws on an empty value and logs it otherwise; the platform probe runs
before the task-name dispatch. -/
def doRun (task : Option String) (platform : String) (ostype : Option String)
    (probe : Unit → ProbeResult) (archRaw version : String) :
    List RunEffect × Option String :=
  match task with
  | none => ([], some "No task provided")
  | some t =>
    if t == "" then ([], some "No task provided")
    else
      let label := "[" ++ t ++ "] "
      let arch := archTransform archRaw
      if arch == "" then ([], some "arch is missing")
      else
        let rt := targetModel platform ostype probe
        let fx := [RunEffect.logMsg (label ++ "arch is \"" ++ arch ++ "\"")] ++
          rt.1 ++ [RunEffect.logMsg (label ++ "target is \"" ++ rt.2 ++ "\"")]
        let binaryName := "code-server-" ++ version ++ "-" ++ rt.2 ++ "-" ++ arch
        if t == "watch" || t == "binary" || t == "package" || t == "build" then
          (fx ++ [RunEffect.pipeline t binaryName], none)
        else
          (fx, some ("No task matching \"" ++ t ++ "\""))

/-- `run(task)`: on a `doRun` rejection, `console.error(error.message)`
then `process.exit(1)`. -/
def runTask (task : Option String) (platform : String) (ostype : Option String)
    (probe : Unit → ProbeResult) (archRaw version : String) : List RunEffect :=
  let r := doRun task platform ostype probe archRaw version
  match r.2 with
  | none => r.1
  | some e => r.1 ++ [RunEffect.errorMsg e, RunEffect.exitRun 1]

/-- Number of pipeline dispatches in a `run` effect list. -/
def pipeCount : List RunEffect → Nat
  | [] => 0
  | RunEffect.pipeline _ _ :: rest => pipeCount rest + 1
  | _ :: rest => pipeCount rest

theorem execCount_append (a b : List Effect) :
    execCount (a ++ b) = execCount a + execCount b := by
  induction a with
  | nil => simp [execCount]
  | cons e rest ih => cases e <;> simp [execCount, ih] <;> omega

theorem spawnCount_append (a b : List Effect) :
    spawnCount (a ++ b) = spawnCount a + spawnCount b := by
  induction a with
  | nil => simp [spawnCount]
  | cons e rest ih => cases e <;> simp [spawnCount, ih] <;> omega

theorem spawnCount_restartServer (st : WatchState) :
    spawnCount (restartServer st).2 = 1 := by
  rw [restartServer]
  cases st.server <;> simp [spawnCount, spawnCount_append]

theorem spawnCount_runPending (n : Nat) :
    ∀ st, spawnCount (runPending n st).2 = n := by
  induction n with
  | zero => intro st; simp [runPending, spawnCount]
  | succ m ih =>
    intro st
    simp [runPending, spawnCount_append, spawnCount_restartServer, ih]
    omega

theorem tscMarker_contains :
    strContains (stripAnsiStr "Watching for file changes.")
      "Watching for file changes" = true := by decide

theorem tscMarker_nonempty :
    (stripAnsiStr "Watching for file changes." == "") = false := by decide

theorem armMarker_contains :
    strContains (stripAnsiStr "Starting watch-client")
      "Starting watch-client" = true := by decide

theorem finMarker_contains :
    strContains (stripAnsiStr "Finished compilation")
      "Finished compilation" = true := by decide

/-- C5.  When the supervisor receives an interrupt or terminate signal
while the run is live, the observable side effects are, in order:
listeners detached from and the editor-core (vscode) watcher killed, then
the type-checker (tsc) watcher killed, then the server process killed if
one is present, and finally `process.exit` with code 0 (the default). -/
theorem c5_cleanup_order (ap : Bool) (st : WatchState)
    (hex : st.exited = none) :
    (watchStep ap st Event.sigint).2 =
      [Effect.log "killing vs code watcher", Effect.killVscode,
       Effect.log "killing tsc", Effect.killTsc] ++
      (match st.server with
       | some p => [Effect.log "killing server", Effect.killServer p]
       | none => []) ++
      [Effect.log "killing bundler", Effect.exitRun 0] ∧
    (watchStep ap st Event.sigterm).2 = (watchStep ap st Event.sigint).2 := by
  constructor
  · simp [watchStep, hex, cleanup, jsOr0]
  · simp [watchStep, hex]

/-- A concrete live supervisor state with a live server, for witnesses. -/
def demoState : WatchState :=
  { server := some 7, nextPid := 8, startingVscode := true,
    bundleResolved := true, pendingThens := 0, exited := none }

/-- Witness for C5 at a concrete live state with a live server. -/
theorem c5_cleanup_order_witness :
    (watchStep true demoState Event.sigint).2 =
      [Effect.log "killing vs code watcher", Effect.killVscode,
       Effect.log "killing tsc", Effect.killTsc] ++
      [Effect.log "killing server", Effect.killServer 7] ++
      [Effect.log "killing bundler", Effect.exitRun 0] ∧
    (watchStep true demoState Event.sigterm).2 =
    (watchStep true demoState Event.sigint).2 :=
  c5_cleanup_order true demoState rfl

/-- C6.  Shutdown is effectively idempotent: the first `cleanup`
invocation ends in `process.exit`, after which the run is terminated and
no handler performs any further side effect — a second signal delivery
(or any other event) after a completed shutdown does nothing. -/
theorem c6_shutdown_idempotent (ap : Bool) (st : WatchState) (ev : Event)
    (hex : st.exited = none) :
    runTrace ap st [Event.sigint, Event.sigint] =
      runTrace ap st [Event.sigint] ∧
    watchStep ap ((watchStep ap st Event.sigint).1) ev =
      ((watchStep ap st Event.sigint).1, []) := by
  have hstep : watchStep ap st Event.sigint =
      ({ st with exited := some 0 }, cleanup st.server none) := by
    simp [watchStep, hex, jsOr0]
  constructor
  · simp only [runTrace, hstep]
    simp [watchStep]
  · rw [hstep]
    simp [watchStep]

/-- Witness for C6 at a concrete live state. -/
theorem c6_shutdown_idempotent_witness :
    runTrace false initWatch [Event.sigint, Event.sigint] =
      runTrace false initWatch [Event.sigint] ∧
    watchStep false ((watchStep false initWatch Event.sigint).1) Event.sigterm =
      ((watchStep false initWatch Event.sigint).1, []) :=
  c6_shutdown_idempotent false initWatch Event.sigterm rfl

/-- C7 counterexample: the vscode watcher exits unexpectedly with code 0
while the supervisor is running.  The supervisor logs "terminated
unexpectedly" and shuts down, but the run exits with code
`code || 0 = 0` — not with the non-zero code (1) the claim requires. -/
theorem c7_counterexample :
    runTrace false initWatch [Event.vscodeExit (some 0)] =
      [Effect.log "vs code watcher terminated unexpectedly",
       Effect.log "killing vs code watcher", Effect.killVscode,
       Effect.log "killing tsc", Effect.killTsc,
       Effect.log "killing bundler", Effect.exitRun 0] ∧
    Effect.exitRun 1 ∉ runTrace false initWatch [Event.vscodeExit (some 0)] := by
  constructor
  · decide
  · decide

/-- C7 (amended).  On an unexpected exit of either core watcher while the
run is live, the supervisor logs the distinguishing "terminated
unexpectedly" message and invokes `cleanup` with the child's own exit
code: the run then exits with `childCode || 0` — the child's code, or 0
when the child exited with 0 or a null code — not necessarily 1 or even
non-zero. -/
theorem c7_amended (ap : Bool) (st : WatchState) (c : Option Int)
    (hex : st.exited = none) :
    (watchStep ap st (Event.vscodeExit c)).2 =
      Effect.log "vs code watcher terminated unexpectedly" ::
        cleanup st.server c ∧
    (watchStep ap st (Event.tscExit c)).2 =
      Effect.log "tsc terminated unexpectedly" :: cleanup st.server c ∧
    (cleanup st.server c).getLastD (Effect.exitRun 0) =
      Effect.exitRun (jsOr0 c) := by
  refine ⟨by simp [watchStep, hex], by simp [watchStep, hex], ?_⟩
  rw [cleanup.eq_def]
  rw [getLastD_append_ne _ (by cases st.server <;> simp)]
  rw [List.getLastD_cons, List.getLastD_cons, List.getLastD_nil]

/-- Witness for C7 (amended) at a concrete state and child code 5. -/
theorem c7_amended_witness :
    (watchStep true demoState (Event.vscodeExit (some 5))).2 =
      Effect.log "vs code watcher terminated unexpectedly" ::
        cleanup (some 7) (some 5) ∧
    (watchStep true demoState (Event.tscExit (some 5))).2 =
      Effect.log "tsc terminated unexpectedly" :: cleanup (some 7) (some 5) ∧
    (cleanup (some 7) (some 5)).getLastD (Effect.exitRun 0) =
      Effect.exitRun (jsOr0 (some 5)) :=
  c7_amended true demoState (some 5) rfl

/-- C1 counterexample: two `restartServer()` invocations in rapid
succession (two tsc completion markers arriving after the bundle promise
resolved).  The first invocation spawns server pid 1; the second kills
pid 1 and spawns the replacement pid 2 in the same synchronous step.  No
exit acknowledgment of pid 1 (`serverExited 1`, the `[server] process 1
exited` log) occurs anywhere in the trace, so the replacement spawn does
not occur strictly after the first process's termination is
acknowledged, and both processes may be live between the kill signal and
the never-yet-delivered exit event. -/
theorem c1_counterexample :
    runTrace false initWatch
      [Event.bundleResolve,
       Event.tscLine "Watching for file changes.",
       Event.tscLine "Watching for file changes."] =
      [Effect.log "[tsc] Watching for file changes.",
       Effect.spawnServer 1, Effect.log "[server] spawned process 1",
       Effect.log "[tsc] Watching for file changes.",
       Effect.killServer 1, Effect.spawnServer 2,
       Effect.log "[server] spawned process 2"] ∧
    Effect.spawnServer 2 ∈ runTrace false initWatch
      [Event.bundleResolve,
       Event.tscLine "Watching for file changes.",
       Event.tscLine "Watching for file changes."] ∧
    Effect.serverExited 1 ∉ runTrace false initWatch
      [Event.bundleResolve,
       Event.tscLine "Watching for file changes.",
       Event.tscLine "Watching for file changes."] := by
  refine ⟨by decide, by decide, by decide⟩

/-- C1 (amended).  `restartServer()` with a live server sends the kill to
the old process strictly before forking the replacement, but both happen
in the same synchronous step: it does not wait for the old process's exit
acknowledgment, which is delivered (and logged) only as a separate,
later event. -/
theorem c1_amended (ap : Bool) (st : WatchState) (p : Nat)
    (hex : st.exited = none) (hres : st.bundleResolved = true)
    (hsrv : st.server = some p) :
    (watchStep ap st (Event.tscLine "Watching for file changes.")).2 =
      [Effect.log ("[tsc] " ++ "Watching for file changes."),
       Effect.killServer p, Effect.spawnServer st.nextPid,
       Effect.log ("[server] spawned process " ++ toString st.nextPid)] ∧
    (watchStep ap st (Event.serverExit p)).2 = [Effect.serverExited p] := by
  constructor
  · simp only [watchStep, hex, Option.isSome_none, Bool.false_eq_true,
      if_false, tscMarker_contains, tscMarker_nonempty, hres, if_true,
      restartServer, hsrv]
    simp [tscMarker_nonempty, tscMarker_contains]
  · simp [watchStep, hex]

/-- Witness for C1 (amended) at a concrete live state. -/
theorem c1_amended_witness :
    (watchStep true demoState (Event.tscLine "Watching for file changes.")).2 =
      [Effect.log ("[tsc] " ++ "Watching for file changes."),
       Effect.killServer 7, Effect.spawnServer 8,
       Effect.log ("[server] spawned process " ++ toString 8)] ∧
    (watchStep true demoState (Event.serverExit 7)).2 =
      [Effect.serverExited 7] :=
  c1_amended true demoState 7 rfl rfl rfl

/-- C2 counterexample: with `AUTO_PATCH` enabled, after the arming marker
"Starting watch-client" the finished marker "Finished compilation"
appears N = 2 times, and the auto-patch side command is executed twice —
the code fires `yarn patch:generate` on every finished marker once armed,
not at most once per run. -/
theorem c2_counterexample :
    execCount (runTrace true initWatch
      [Event.vscodeLine "Starting watch-client",
       Event.vscodeLine "Finished compilation",
       Event.vscodeLine "Finished compilation"]) = 2 ∧
    ¬ (execCount (runTrace true initWatch
      [Event.vscodeLine "Starting watch-client",
       Event.vscodeLine "Finished compilation",
       Event.vscodeLine "Finished compilation"]) ≤ 1) := by
  constructor
  · decide
  · decide

/-- Once armed, each finished marker fires the side command exactly once
and leaves the state unchanged. -/
theorem auto_patch_fires_each (n : Nat) :
    ∀ st : WatchState, st.exited = none → st.startingVscode = true →
    execCount (runTrace true st
      (List.replicate n (Event.vscodeLine "Finished compilation"))) = n := by
  induction n with
  | zero => intro st _ _; simp [runTrace, execCount]
  | succ m ih =>
    intro st hex harm
    have hstep : watchStep true st (Event.vscodeLine "Finished compilation") =
        (st, [Effect.log ("[vscode] " ++ "Finished compilation"),
              Effect.execCmd "yarn patch:generate"]) := by
      simp [watchStep, hex, harm, finMarker_contains]
    rw [List.replicate_succ]
    simp only [runTrace, hstep]
    simp [execCount_append, execCount, ih st hex harm]

/-- C2 (amended).  The arming flag `startingVscode` is one-shot, but the
trigger it guards is not: with `AUTO_PATCH` enabled, once the arming
marker has been seen, the auto-patch side command fires on every
subsequent "Finished compilation" marker — N firings for N marker lines,
not at most one per run. -/
theorem c2_amended (st : WatchState) (n : Nat)
    (hex : st.exited = none) (harm : st.startingVscode = false) :
    execCount (runTrace true st
      (Event.vscodeLine "Starting watch-client" ::
        List.replicate n (Event.vscodeLine "Finished compilation"))) = n := by
  have hstep : watchStep true st (Event.vscodeLine "Starting watch-client") =
      ({ st with startingVscode := true },
        [Effect.log ("[vscode] " ++ "Starting watch-client")]) := by
    simp [watchStep, hex, harm, armMarker_contains]
  simp only [runTrace, hstep]
  simp [execCount_append, execCount,
    auto_patch_fires_each n { st with startingVscode := true } (by simp [hex]) rfl]

/-- Witness for C2 (amended): from the initial state, arming followed by
three finished markers fires the command three times. -/
theorem c2_amended_witness :
    execCount (runTrace true initWatch
      (Event.vscodeLine "Starting watch-client" ::
        List.replicate 3 (Event.vscodeLine "Finished compilation"))) = 3 :=
  c2_amended initWatch 3 rfl rfl

/-- C10.  A tsc "Watching for file changes" marker observed while the
bundle promise is still pending spawns nothing immediately: it only
queues one more `restartServer` callback on the promise; when the bundle
operation resolves, exactly one server restart runs per queued marker
occurrence. -/
theorem c10_deferred_restart (ap : Bool) (st : WatchState)
    (hex : st.exited = none) (hpend : st.bundleResolved = false) :
    spawnCount
      (watchStep ap st (Event.tscLine "Watching for file changes.")).2 = 0 ∧
    (watchStep ap st (Event.tscLine "Watching for file changes.")).1 =
      { st with pendingThens := st.pendingThens + 1 } ∧
    spawnCount (watchStep ap
      ((watchStep ap st (Event.tscLine "Watching for file changes.")).1)
      Event.bundleResolve).2 = st.pendingThens + 1 := by
  have hstep : watchStep ap st (Event.tscLine "Watching for file changes.") =
      ({ st with pendingThens := st.pendingThens + 1 },
        [Effect.log ("[tsc] " ++ "Watching for file changes.")]) := by
    simp [watchStep, hex, hpend, tscMarker_contains, tscMarker_nonempty]
  refine ⟨by rw [hstep]; simp [spawnCount], by rw [hstep], ?_⟩
  rw [hstep]
  simp [watchStep, hex, spawnCount_runPending]

/-- Witness for C10 at the initial state (bundle pending, no queued
restarts): the marker spawns nothing and queues one restart; resolution
then runs exactly one. -/
theorem c10_deferred_restart_witness :
    spawnCount
      (watchStep false initWatch
        (Event.tscLine "Watching for file changes.")).2 = 0 ∧
    (watchStep false initWatch (Event.tscLine "Watching for file changes.")).1 =
      { initWatch with pendingThens := initWatch.pendingThens + 1 } ∧
    spawnCount (watchStep false
      ((watchStep false initWatch
        (Event.tscLine "Watching for file changes.")).1)
      Event.bundleResolve).2 = initWatch.pendingThens + 1 :=
  c10_deferred_restart false initWatch rfl rfl

/-- C4 counterexample: the emitted logical line `"\u001B[31mA\u001Bz"`
contains a well-formed ANSI escape sequence (`"\u001B[31m"`, the
bracket-introduced colour form) interleaved in the line, yet the stripped
line handed to the callback is `"A\u001Bz"` — it still contains the
escape byte `\u001B`, because a stray escape byte that begins no regex
match is not removed by `replace`. -/
theorem c4_counterexample :
    (procStream [] ["\u001B[31mA\u001Bz\n".toList]).1 =
      [("A\u001Bz".toList, "\u001B[31mA\u001Bz".toList)] ∧
    '\u001B' ∈ "A\u001Bz".toList := by
  constructor
  · decide
  · decide

/-- C4 (amended).  Every pair handed to the `onLine` callback is
(stripped line, original line) with the original unmodified; and whenever
every escape byte of the emitted line begins a well-formed ANSI escape
sequence (a match of the regex, covering both the bracket-introduced and
non-bracket forms), the stripped line contains no escape bytes at all. -/
theorem c4_amended (chunks : List (List Char)) (p : List Char × List Char)
    (hp : p ∈ (procStream [] chunks).1) (hgood : goodLine p.2 = true) :
    p.1 = stripAnsi p.2 ∧ ∀ c ∈ p.1, isIntro c = false := by
  have h1 := procStream_pair chunks p hp
  refine ⟨h1, ?_⟩
  rw [h1]
  exact stripAnsi_no_intro p.2 hgood

/-- Witness for C4 (amended) on a line with an embedded colour code. -/
theorem c4_amended_witness :
    (("hi".toList, "\u001B[31mhi".toList) :
        List Char × List Char).1 =
      stripAnsi (("hi".toList, "\u001B[31mhi".toList) :
        List Char × List Char).2 ∧
    ∀ c ∈ (("hi".toList, "\u001B[31mhi".toList) :
        List Char × List Char).1, isIntro c = false :=
  c4_amended ["\u001B[31mhi\n".toList] ("hi".toList, "\u001B[31mhi".toList)
    (by decide) (by decide)

/-- C8.  Platform resolution: on a darwin host the resolver returns
"darwin" for every probe whatsoever (the probe thunk is not consulted);
on a non-darwin host it returns "alpine" exactly when the probe's output
— stderr or stdout of a successful probe, or the error message of a
failed probe — contains "musl", and "linux" otherwise (so a failed probe
without "musl" in its message defaults to "linux"). -/
theorem c8_target (plat : String) (o : Option String)
    (pr : Unit → ProbeResult) (m : String)
    (hplat : (plat == "darwin") = false) (ho : ostypeDarwin o = false) :
    (∀ q : Unit → ProbeResult, targetResolve "darwin" o q = "darwin") ∧
    (muslIn (pr ()) = true → targetResolve plat o pr = "alpine") ∧
    (muslIn (pr ()) = false → targetResolve plat o pr = "linux") ∧
    muslIn (ProbeResult.err m) = strContains m "musl" := by
  refine ⟨fun q => by simp [targetResolve], ?_, ?_, ?_⟩
  · intro h; simp [targetResolve, hplat, ho, h]
  · intro h; simp [targetResolve, hplat, ho, h]
  · have h0 : strContains "" "musl" = false := by decide
    simp [muslIn, probeOutputs, h0]

/-- Witness for C8: a linux host whose failed probe reports musl on
stderr. -/
theorem c8_target_witness :
    (∀ q : Unit → ProbeResult,
      targetResolve "darwin" none q = "darwin") ∧
    (muslIn ((fun _ => ProbeResult.err "musl libc (x86_64)") ()) = true →
      targetResolve "linux" none
        (fun _ => ProbeResult.err "musl libc (x86_64)") = "alpine") ∧
    (muslIn ((fun _ => ProbeResult.err "musl libc (x86_64)") ()) = false →
      targetResolve "linux" none
        (fun _ => ProbeResult.err "musl libc (x86_64)") = "linux") ∧
    muslIn (ProbeResult.err "command not found") =
      strContains "command not found" "musl" :=
  c8_target "linux" none (fun _ => ProbeResult.err "musl libc (x86_64)")
    "command not found" (by decide) rfl

/-- C9 counterexample: an unrecognized task on a non-darwin host.  The
run does report the descriptive error and exit non-zero and dispatches no
pipeline, but the platform-probe child process (`ldd --version`) is
spawned before the error — so the failure is not "before any child
process is spawned". -/
theorem c9_counterexample :
    runTask (some "bogus") "linux" none (fun _ => ProbeResult.ok "" "")
        "x64" "1.0.0" =
      [RunEffect.logMsg "[bogus] arch is \"x86_64\"",
       RunEffect.spawnProbe,
       RunEffect.logMsg "[bogus] target is \"linux\"",
       RunEffect.errorMsg "No task matching \"bogus\"",
       RunEffect.exitRun 1] ∧
    RunEffect.spawnProbe ∈ runTask (some "bogus") "linux" none
      (fun _ => ProbeResult.ok "" "") "x64" "1.0.0" := by
  constructor
  · decide
  · decide

theorem pipeCount_append (a b : List RunEffect) :
    pipeCount (a ++ b) = pipeCount a + pipeCount b := by
  induction a with
  | nil => simp [pipeCount]
  | cons e rest ih => cases e <;> simp [pipeCount, ih] <;> omega

/-- The effects of platform resolution are nothing or one probe spawn. -/
theorem targetModel_fst (plat : String) (o : Option String)
    (pr : Unit → ProbeResult) :
    (targetModel plat o pr).1 = [] ∨
    (targetModel plat o pr).1 = [RunEffect.spawnProbe] := by
  rw [targetModel]
  split
  · exact Or.inl rfl
  · exact Or.inr rfl

/-- C9 (amended).  A missing task (absent or empty `process.argv[2]`)
fails with "No task provided" and exit code 1 before anything is logged
or spawned.  An unrecognized task also fails fast — descriptive
`No task matching "<task>"` error, exit code 1, and no pipeline is ever
dispatched — but only after platform resolution, which on a non-darwin
host spawns the `ldd --version` probe child process first: the effects
preceding the error are only log lines and possibly that probe spawn. -/
theorem c9_amended (t plat : String) (o : Option String)
    (pr : Unit → ProbeResult) (a v : String)
    (ht : (t == "watch" || t == "binary" || t == "package" || t == "build")
      = false)
    (hte : (t == "") = false) (ha : (archTransform a == "") = false) :
    runTask none plat o pr a v =
      [RunEffect.errorMsg "No task provided", RunEffect.exitRun 1] ∧
    runTask (some "") plat o pr a v =
      [RunEffect.errorMsg "No task provided", RunEffect.exitRun 1] ∧
    pipeCount (runTask (some t) plat o pr a v) = 0 ∧
    ∃ fx, runTask (some t) plat o pr a v =
      fx ++ [RunEffect.errorMsg ("No task matching \"" ++ t ++ "\""),
             RunEffect.exitRun 1] ∧
      ∀ e ∈ fx, e = RunEffect.spawnProbe ∨ ∃ msg, e = RunEffect.logMsg msg := by
  have hdo : doRun (some t) plat o pr a v =
      ([RunEffect.logMsg ("[" ++ t ++ "] " ++ "arch is \"" ++ archTransform a
          ++ "\"")] ++
        (targetModel plat o pr).1 ++
        [RunEffect.logMsg ("[" ++ t ++ "] " ++ "target is \"" ++
          (targetModel plat o pr).2 ++ "\"")],
        some ("No task matching \"" ++ t ++ "\"")) := by
    simp [doRun, hte, ha, ht]
  refine ⟨by simp [runTask, doRun], by simp [runTask, doRun], ?_, ?_⟩
  · rcases targetModel_fst plat o pr with h | h <;>
      simp [runTask, hdo, h, pipeCount_append, pipeCount]
  · refine ⟨[RunEffect.logMsg ("[" ++ t ++ "] " ++ "arch is \"" ++
        archTransform a ++ "\"")] ++
      (targetModel plat o pr).1 ++
      [RunEffect.logMsg ("[" ++ t ++ "] " ++ "target is \"" ++
        (targetModel plat o pr).2 ++ "\"")], ?_, ?_⟩
    · simp [runTask, hdo]
    · intro e he
      rcases List.mem_append.mp he with he1 | he1
      · rcases List.mem_append.mp he1 with he2 | he2
        · rw [List.mem_singleton] at he2
          exact Or.inr ⟨_, he2⟩
        · rcases targetModel_fst plat o pr with h | h
          · rw [h] at he2; exact absurd he2 (List.not_mem_nil e)
          · rw [h, List.mem_singleton] at he2
            exact Or.inl he2
      · rw [List.mem_singleton] at he1
        exact Or.inr ⟨_, he1⟩

/-- Witness for C9 (amended) with task "bogus" on a linux host. -/
theorem c9_amended_witness :
    runTask none "linux" none (fun _ => ProbeResult.ok "" "") "x64" "1.0.0" =
      [RunEffect.errorMsg "No task provided", RunEffect.exitRun 1] ∧
    runTask (some "") "linux" none (fun _ => ProbeResult.ok "" "")
        "x64" "1.0.0" =
      [RunEffect.errorMsg "No task provided", RunEffect.exitRun 1] ∧
    pipeCount (runTask (some "bogus") "linux" none
      (fun _ => ProbeResult.ok "" "") "x64" "1.0.0") = 0 ∧
    ∃ fx, runTask (some "bogus") "linux" none (fun _ => ProbeResult.ok "" "")
        "x64" "1.0.0" =
      fx ++ [RunEffect.errorMsg ("No task matching \"" ++ "bogus" ++ "\""),
             RunEffect.exitRun 1] ∧
      ∀ e ∈ fx, e = RunEffect.spawnProbe ∨ ∃ msg, e = RunEffect.logMsg msg :=
  c9_amended "bogus" "linux" none (fun _ => ProbeResult.ok "" "") "x64" "1.0.0"
    (by decide) (by decide) (by decide)
